import Mathlib

/-!
Verification of the workspace-memory tool server (src/index.js).

The server operates on plain text documents: a long-term memory file, one
daily-note file per date, and TODO marker lines inside the daily notes.
Strings are modelled as lists of characters.  Each operation receives the
current content of the one file it touches (an Option: none means the file
is absent, mirroring readFile returning null) and returns the new content
where the source writes.  Clock values (timestamps, the current date) are
external inputs and appear as explicit parameters.
-/

namespace WorkspaceMemory

/-- JS strings are modelled as lists of characters. -/
abbrev Str := List Char

/-- CONFIG.todoMarker in src/index.js. -/
def todoMarker : Str := "[ ]".toList

/-- CONFIG.doneMarker in src/index.js. -/
def doneMarker : Str := "[x]".toList

/-- String.prototype.startsWith: startsWithStr s p is true when p is a
    leading segment of s. -/
def startsWithStr : Str → Str → Bool
  | _, [] => true
  | [], _ :: _ => false
  | c :: cs, p :: ps => c == p && startsWithStr cs ps

/-- String.prototype.includes: substring containment. -/
def jsIncludes : Str → Str → Bool
  | [], sub => startsWithStr [] sub
  | c :: rest, sub => startsWithStr (c :: rest) sub || jsIncludes rest sub

/-- Whitespace recognised by String.prototype.trim (the ASCII fragment that
    can occur in the documents involved). -/
def isJsSpace (c : Char) : Bool := c == ' ' || c == '\t' || c == '\n' || c == '\r'

/-- Remove leading whitespace. -/
def dropSpaces : Str → Str
  | [] => []
  | c :: cs => if isJsSpace c then dropSpaces cs else c :: cs

/-- String.prototype.trim: drop whitespace from both ends. -/
def jsTrim (s : Str) : Str := (dropSpaces (dropSpaces s).reverse).reverse

/-- String.prototype.toLowerCase (ASCII). -/
def lowerStr (s : Str) : Str := s.map Char.toLower

/-- String.prototype.split with separator given by one newline character. -/
def splitLines : Str → List Str
  | [] => [[]]
  | c :: cs =>
      if c == '\n' then [] :: splitLines cs
      else
        match splitLines cs with
        | [] => [[c]]
        | l :: ls => (c :: l) :: ls

/-- Array.prototype.join with a newline separator. -/
def joinLines : List Str → Str
  | [] => []
  | [l] => l
  | l :: ls => l ++ '\n' :: joinLines ls

/-- String.prototype.replace with a plain-string pattern: replaces the first
    occurrence only. -/
def replaceFirst (pat rep : Str) : Str → Str
  | [] => if pat.isEmpty then rep else []
  | c :: rest =>
      if startsWithStr (c :: rest) pat then rep ++ (c :: rest).drop pat.length
      else c :: replaceFirst pat rep rest

/-- JS truthiness of a readFile result: null and the empty string are both
    falsy, so the source tests of the form (!content) conflate them. -/
def jsFalsyStr : Option Str → Bool
  | none => true
  | some s => s.isEmpty

/-- The date part of CONFIG.dailyNotePattern: ten characters of shape
    dddd-dd-dd where d is a decimal digit. -/
def isDatePart : Str → Bool
  | [y1, y2, y3, y4, h1, m1, m2, h2, d1, d2] =>
      y1.isDigit && y2.isDigit && y3.isDigit && y4.isDigit && h1 == '-' &&
      m1.isDigit && m2.isDigit && h2 == '-' && d1.isDigit && d2.isDigit
  | _ => false

/-- CONFIG.dailyNotePattern: the anchored regex for names dddd-dd-dd.md. -/
def isDailyNoteName (s : Str) : Bool :=
  isDatePart (s.take 10) && s.drop 10 == ".md".toList

/-- Lexicographic comparison of character lists; on the plain ASCII filenames
    involved this is the order localeCompare induces. -/
def lexLt : Str → Str → Bool
  | [], [] => false
  | [], _ :: _ => true
  | _ :: _, [] => false
  | a :: as, b :: bs => if a < b then true else if b < a then false else lexLt as bs

/-- Insert into a list that is sorted in descending order. -/
def insertDesc (x : Str) : List Str → List Str
  | [] => [x]
  | y :: ys => if lexLt x y then y :: insertDesc x ys else x :: y :: ys

/-- Array.prototype.sort with the descending comparator used at line 165 of
    src/index.js. -/
def sortDesc : List Str → List Str
  | [] => []
  | x :: xs => insertDesc x (sortDesc xs)

/-- getMemory (src/index.js lines 71-73): readFile of the memory file, with
    null coerced to the empty string. -/
def getMemory (mem : Option Str) : Str := mem.getD []

/-- Return value of addMemory. -/
structure AddMemoryResult where
  success : Bool
  entry : Str
  category : Str
  timestamp : Str
deriving DecidableEq

/-- addMemory (lines 78-93): append a fresh category section to the memory
    document.  The timestamp is the externally supplied clock value; the
    second component is the newly written memory file. -/
def addMemory (mem : Option Str) (entry category timestamp : Str) :
    AddMemoryResult × Option Str :=
  let content := getMemory mem
  let newEntry := "\n## ".toList ++ category ++ "\n- **".toList ++ timestamp
    ++ "**: ".toList ++ entry
  let newContent := content ++ newEntry
  (⟨true, entry, category, timestamp⟩, some newContent)

/-- Return value of searchMemory; fields the source omits on some paths are
    Options. -/
structure SearchResult where
  query : Option Str
  count : Option Nat
  results : List Str
  message : Option Str
deriving DecidableEq

/-- searchMemory output together with the number of getMemory invocations
    (storage reads) the call performs. -/
structure SearchOut where
  result : SearchResult
  reads : Nat
deriving DecidableEq

/-- searchMemory (lines 98-119).  The source lower-cases a first getMemory
    read before the empty-query test (that value is never used afterwards),
    and reads again to split into lines; reads counts those invocations. -/
def searchMemory (mem : Option Str) (query : Str) : SearchOut :=
  let _content := lowerStr (getMemory mem)
  let queryLower := lowerStr query
  if query.isEmpty then
    ⟨⟨none, none, [], some "No query provided".toList⟩, 1⟩
  else
    let lines := splitLines (getMemory mem)
    let found := ((lines.enum.filter fun p => jsIncludes (lowerStr p.2) queryLower).map
        fun p => jsTrim p.2).filter fun l => decide (0 < l.length)
    ⟨⟨some query, some found.length, found.take 20, none⟩, 2⟩

/-- Return value of getDailyNote. -/
structure GetNoteResult where
  exists_ : Bool
  date : Str
  content : Option Str
deriving DecidableEq

/-- getDailyNote (lines 124-133).  The file argument is the readFile result
    for the path derived from dateStr; the JS test (!content) is modelled by
    jsFalsyStr. -/
def getDailyNote (file : Option Str) (dateStr : Str) : GetNoteResult :=
  if jsFalsyStr file then ⟨false, dateStr, none⟩
  else ⟨true, dateStr, file⟩

/-- Return value of addDailyNote. -/
structure AddDailyNoteResult where
  success : Bool
  date : Str
  entry : Str
  timestamp : Str
deriving DecidableEq

/-- addDailyNote (lines 138-155): append one timestamped bullet line; the
    second component is the newly written note file. -/
def addDailyNote (file : Option Str) (entry timestamp dateStr : Str) :
    AddDailyNoteResult × Option Str :=
  let content := file.getD []
  let newEntry := "- **".toList ++ timestamp ++ "**: ".toList ++ entry ++ "\n".toList
  let content2 := content ++ newEntry
  (⟨true, dateStr, entry, timestamp⟩, some content2)

/-- Return value of listDailyNotes. -/
structure ListNotesResult where
  notes : List Str
  count : Nat
  error : Option Str
deriving DecidableEq

/-- listDailyNotes (lines 160-173).  The dir argument is the readdirSync
    outcome: ok with the list of filenames, or error with the thrown message. -/
def listDailyNotes (dir : Except Str (List Str)) (limit : Nat) : ListNotesResult :=
  match dir with
  | Except.error e => ⟨[], 0, some e⟩
  | Except.ok files =>
      let notes := ((sortDesc (files.filter isDailyNoteName)).take limit).map
        (replaceFirst ".md".toList [])
      ⟨notes, notes.length, none⟩

/-- One parsed TODO line. -/
structure TodoItem where
  text : Str
  done : Bool
  line : Nat
deriving DecidableEq

/-- Return value of getTODOs; in the source the count field is present only
    on the branch where the note exists. -/
structure GetTodosResult where
  todos : List TodoItem
  date : Str
  count : Option Nat
deriving DecidableEq

/-- getTODOs (lines 178-195): select the lines whose trimmed form starts with
    a marker; List.enum supplies the zero-based index the source tracks. -/
def getTODOs (file : Option Str) (dateStr : Str) : GetTodosResult :=
  let note := getDailyNote file dateStr
  if !note.exists_ then ⟨[], dateStr, none⟩
  else
    let lines := splitLines (note.content.getD [])
    let todos := (lines.enum.filter fun p =>
        startsWithStr (jsTrim p.2) todoMarker || startsWithStr (jsTrim p.2) doneMarker).map
      fun p => ⟨jsTrim ((jsTrim p.2).drop 4), startsWithStr (jsTrim p.2) doneMarker, p.1⟩
    ⟨todos, dateStr, some todos.length⟩

/-- Return value of addTODO. -/
structure AddTodoResult where
  success : Bool
  date : Str
  todo : Str
deriving DecidableEq

/-- addTODO (lines 200-219): ensure a TODO section heading exists, then append
    one pending bullet line; the second component is the written file. -/
def addTODO (file : Option Str) (todo dateStr : Str) : AddTodoResult × Option Str :=
  let content := file.getD []
  let content1 :=
    if !jsIncludes content "## TODOs".toList then content ++ "\n## TODOs\n".toList
    else content
  let newEntry := "- ".toList ++ todoMarker ++ " ".toList ++ todo ++ "\n".toList
  let content2 := content1 ++ newEntry
  (⟨true, dateStr, todo⟩, some content2)

/-- Return value of completeTODO; fields the source omits on some paths are
    Options. -/
structure CompleteResult where
  success : Bool
  error : Option Str
  todo : Option Str
  completed : Option Bool
deriving DecidableEq

/-- completeTODO outcome: the result object, the note file after the call,
    and whether writeFile was invoked. -/
structure CompleteOut where
  res : CompleteResult
  file : Option Str
  wrote : Bool
deriving DecidableEq

/-- The search loop of completeTODO (lines 236-243): find the first line
    whose trimmed form starts with the pending marker and contains todoText,
    and replace that line by its trimmed form with the first marker
    occurrence swapped for the done marker; none when no line matches. -/
def completeScan (todoText : Str) : List Str → Option (List Str)
  | [] => none
  | l :: rest =>
      let t := jsTrim l
      if startsWithStr t todoMarker && jsIncludes t todoText then
        some (replaceFirst todoMarker doneMarker t :: rest)
      else (completeScan todoText rest).map fun r => l :: r

/-- completeTODO (lines 224-255). -/
def completeTODO (file : Option Str) (todoText dateStr : Str) : CompleteOut :=
  if jsFalsyStr file then
    ⟨⟨false, some "Daily note not found".toList, none, none⟩, file, false⟩
  else
    let lines := splitLines (file.getD [])
    match completeScan todoText lines with
    | none => ⟨⟨false, some "TODO not found".toList, some todoText, none⟩, file, false⟩
    | some lines2 => ⟨⟨true, none, some todoText, some true⟩, some (joinLines lines2), true⟩

/-! Basic facts about the string primitives. -/

theorem startsWithStr_append_self : ∀ (p t : Str), startsWithStr (p ++ t) p = true
  | [], t => by cases t <;> rfl
  | c :: cs, t => by simp [startsWithStr, startsWithStr_append_self cs t]

theorem startsWithStr_refl (s : Str) : startsWithStr s s = true := by
  simpa using startsWithStr_append_self s []

theorem jsIncludes_refl (s : Str) : jsIncludes s s = true := by
  cases s with
  | nil => rfl
  | cons c cs => simp [jsIncludes, startsWithStr_refl]

theorem jsIncludes_append_left (a : Str) {s sub : Str} (h : jsIncludes s sub = true) :
    jsIncludes (a ++ s) sub = true := by
  induction a with
  | nil => simpa using h
  | cons c cs ih => simp [jsIncludes, ih]

theorem jsIncludes_append_right (a b : Str) : jsIncludes (a ++ b) b = true :=
  jsIncludes_append_left a (jsIncludes_refl b)

theorem jsIncludes_nil_arg (s : Str) : jsIncludes s [] = true := by
  cases s with
  | nil => rfl
  | cons c cs => simp [jsIncludes, startsWithStr]

theorem getDailyNote_some_of_ne (c d : Str) (h : c.isEmpty = false) :
    getDailyNote (some c) d = ⟨true, d, some c⟩ := by
  simp [getDailyNote, jsFalsyStr, h]

theorem isEmpty_append_of_right (a b : Str) (hb : b ≠ []) : (a ++ b).isEmpty = false := by
  cases a with
  | nil =>
      cases b with
      | nil => exact absurd rfl hb
      | cons c cs => rfl
  | cons c cs => rfl

/-! Facts about the completeTODO search loop. -/

theorem completeScan_append (todoText : Str) (pre : List Str) (l : Str) (post : List Str)
    (hpre : ∀ x ∈ pre,
      (startsWithStr (jsTrim x) todoMarker && jsIncludes (jsTrim x) todoText) = false)
    (hl : (startsWithStr (jsTrim l) todoMarker && jsIncludes (jsTrim l) todoText) = true) :
    completeScan todoText (pre ++ l :: post)
      = some (pre ++ replaceFirst todoMarker doneMarker (jsTrim l) :: post) := by
  induction pre with
  | nil => simp [completeScan, hl]
  | cons x xs ih =>
      have hx := hpre x (by simp)
      have hxs : ∀ y ∈ xs,
          (startsWithStr (jsTrim y) todoMarker && jsIncludes (jsTrim y) todoText) = false :=
        fun y hy => hpre y (by simp [hy])
      simp [completeScan, hx, ih hxs]

theorem completeScan_none (todoText : Str) (lines : List Str)
    (h : ∀ x ∈ lines,
      (startsWithStr (jsTrim x) todoMarker && jsIncludes (jsTrim x) todoText) = false) :
    completeScan todoText lines = none := by
  induction lines with
  | nil => rfl
  | cons x xs ih =>
      simp [completeScan, h x (by simp), ih (fun y hy => h y (by simp [hy]))]

theorem completeTODO_match_eq (c todoText dateStr : Str) (pre : List Str) (l : Str)
    (post : List Str) (hsplit : splitLines c = pre ++ l :: post)
    (hpre : ∀ x ∈ pre,
      (startsWithStr (jsTrim x) todoMarker && jsIncludes (jsTrim x) todoText) = false)
    (hl : (startsWithStr (jsTrim l) todoMarker && jsIncludes (jsTrim l) todoText) = true)
    (hc : c ≠ []) :
    completeTODO (some c) todoText dateStr
      = ⟨⟨true, none, some todoText, some true⟩,
         some (joinLines (pre ++ replaceFirst todoMarker doneMarker (jsTrim l) :: post)),
         true⟩ := by
  have hemp : c.isEmpty = false := by
    cases c with
    | nil => exact absurd rfl hc
    | cons x xs => rfl
  have hscan : completeScan todoText (splitLines c)
      = some (pre ++ replaceFirst todoMarker doneMarker (jsTrim l) :: post) := by
    rw [hsplit]
    exact completeScan_append todoText pre l post hpre hl
  simp [completeTODO, jsFalsyStr, hemp, hscan]

/-! Claim theorems. -/

/-- C1: the claim says that for every todo string and date, add_todo followed
    by get_todos on the same date yields a todos list including one pending
    item with the submitted text.  The code violates this: addTODO writes the
    line with a leading dash before the marker, while getTODOs only selects
    lines whose trimmed form starts with the marker itself, so the added item
    is never listed.  This theorem evaluates the composition at the failing
    input: the written file does contain the bullet line, yet the todos list
    comes back empty. -/
theorem addTodo_getTodos_failing_eval :
    (getTODOs (addTODO none "buy milk".toList "2024-01-01".toList).2
        "2024-01-01".toList).todos = []
    ∧ (addTODO none "buy milk".toList "2024-01-01".toList).2
      = some "\n## TODOs\n- [ ] buy milk\n".toList := by decide

/-- C2 counterexample: search_memory with an empty query does read the memory
    file (once, before the empty-query test), contradicting the claim that it
    never touches storage. -/
theorem searchMemory_empty_query_reads_storage :
    (searchMemory (some "secret data".toList) []).reads ≠ 0 := by decide

/-- C2 (amended): search_memory with an empty query returns the fixed
    no-query response whose value is independent of the storage state, and it
    performs exactly one storage read, whose value is discarded. -/
theorem searchMemory_empty_query_fixed_response (mem mem2 : Option Str) :
    (searchMemory mem []).result = ⟨none, none, [], some "No query provided".toList⟩
    ∧ (searchMemory mem []).reads = 1
    ∧ searchMemory mem [] = searchMemory mem2 [] :=
  ⟨rfl, rfl, rfl⟩

/-- C6 counterexample: a daily-note file that exists with empty content is
    reported as not existing, because the source tests the content with JS
    truthiness; the claim says an existing file with empty content is
    reported as existing. -/
theorem getDailyNote_empty_content_counterexample :
    (getDailyNote (some ([] : Str)) "2024-01-01".toList).exists_ = false
    ∧ (some ([] : Str)) ≠ (none : Option Str) := by decide

/-- C6 (amended): get_daily_note on an absent file yields exists false with
    null content, and an existing file with empty content is reported the
    same way (absence and emptiness are conflated); after any add_daily_note
    on the date, get_daily_note reports exists true with content containing
    the appended timestamped line. -/
theorem getDailyNote_absence_and_append (file : Option Str) (dateStr entry timestamp : Str) :
    (file = none → getDailyNote file dateStr = ⟨false, dateStr, none⟩)
    ∧ (file = some [] → getDailyNote file dateStr = ⟨false, dateStr, none⟩)
    ∧ (getDailyNote (addDailyNote file entry timestamp dateStr).2 dateStr).exists_ = true
    ∧ jsIncludes
        ((getDailyNote (addDailyNote file entry timestamp dateStr).2 dateStr).content.getD [])
        ("- **".toList ++ timestamp ++ "**: ".toList ++ entry ++ "\n".toList) = true := by
  have hnl : ("\n".toList : Str) ≠ [] := by decide
  have hne : ("- **".toList ++ timestamp ++ "**: ".toList ++ entry ++ "\n".toList : Str) ≠ [] := by
    intro heq
    rw [List.append_eq_nil] at heq
    exact hnl heq.2
  have hdn : getDailyNote (addDailyNote file entry timestamp dateStr).2 dateStr
      = ⟨true, dateStr, some (file.getD [] ++ ("- **".toList ++ timestamp
          ++ "**: ".toList ++ entry ++ "\n".toList))⟩ :=
    getDailyNote_some_of_ne _ _ (isEmpty_append_of_right _ _ hne)
  refine ⟨?_, ?_, ?_, ?_⟩
  · intro h; subst h; rfl
  · intro h; subst h; rfl
  · rw [hdn]
  · rw [hdn]
    exact jsIncludes_append_right _ _

/-- Witness for getDailyNote_absence_and_append at an absent file. -/
theorem getDailyNote_absence_and_append_witness :
    (none : Option Str) = none
    ∧ getDailyNote (none : Option Str) "2024-01-01".toList
      = ⟨false, "2024-01-01".toList, none⟩
    ∧ (getDailyNote (addDailyNote none "hello".toList "2024-01-01T00:00:00Z".toList
        "2024-01-01".toList).2 "2024-01-01".toList).exists_ = true :=
  ⟨rfl,
    (getDailyNote_absence_and_append none "2024-01-01".toList "hello".toList
      "2024-01-01T00:00:00Z".toList).1 rfl,
    (getDailyNote_absence_and_append none "2024-01-01".toList "hello".toList
      "2024-01-01T00:00:00Z".toList).2.2.1⟩

/-- C8: add_memory appends exactly the new category section to the prior
    memory content, so the prior content is a leading segment of the new one,
    and a subsequent get_memory yields content containing the exact
    timestamped entry line. -/
theorem addMemory_append_only (mem : Option Str) (entry category timestamp : Str) :
    (addMemory mem entry category timestamp).2
      = some (getMemory mem ++ ("\n## ".toList ++ category ++ "\n- **".toList ++ timestamp
          ++ "**: ".toList ++ entry))
    ∧ startsWithStr (getMemory (addMemory mem entry category timestamp).2)
        (getMemory mem) = true
    ∧ jsIncludes (getMemory (addMemory mem entry category timestamp).2)
        ("- **".toList ++ timestamp ++ "**: ".toList ++ entry) = true := by
  refine ⟨rfl, startsWithStr_append_self _ _, ?_⟩
  have hsplit : ("\n## ".toList ++ category ++ "\n- **".toList ++ timestamp
      ++ "**: ".toList ++ entry : Str)
      = ("\n## ".toList ++ category ++ ['\n'])
        ++ ("- **".toList ++ timestamp ++ "**: ".toList ++ entry) := by
    have h1 : ("\n- **".toList : Str) = ['\n'] ++ "- **".toList := rfl
    rw [h1]
    simp [List.append_assoc]
  show jsIncludes (getMemory mem ++ ("\n## ".toList ++ category ++ "\n- **".toList
      ++ timestamp ++ "**: ".toList ++ entry)) _ = true
  rw [hsplit, ← List.append_assoc]
  exact jsIncludes_append_right _ _

/-- C9 counterexample: on an absent note, getTODOs returns an object with no
    count field at all, while the claim says every result has the shape with
    todos, date and count. -/
theorem getTodos_absent_count_counterexample :
    (getTODOs none "2024-01-01".toList).count = none
    ∧ (getTODOs none "2024-01-01".toList).todos = [] := by decide

/-- C9 (amended): when the note file is absent (or empty, which the source
    conflates with absence) getTODOs returns empty todos and the date with no
    count field; when the note exists with nonempty content, count equals the
    number of returned todos and every returned item is read off the line at
    its recorded zero-based index in the newline split: that line trimmed
    starts with the pending or done marker, the text is the trimmed line with
    its first four characters stripped and trimmed again, and done holds
    exactly when the trimmed line starts with the done marker. -/
theorem getTodos_spec (file : Option Str) (dateStr : Str) :
    (jsFalsyStr file = true → getTODOs file dateStr = ⟨[], dateStr, none⟩)
    ∧ ∀ c, file = some c → c ≠ [] →
        (getTODOs file dateStr).count = some (getTODOs file dateStr).todos.length
        ∧ (getTODOs file dateStr).date = dateStr
        ∧ ∀ t ∈ (getTODOs file dateStr).todos,
            ∃ h : t.line < (splitLines c).length,
              (startsWithStr (jsTrim ((splitLines c).get ⟨t.line, h⟩)) todoMarker = true
                  ∨ startsWithStr (jsTrim ((splitLines c).get ⟨t.line, h⟩)) doneMarker = true)
                ∧ t.text = jsTrim ((jsTrim ((splitLines c).get ⟨t.line, h⟩)).drop 4)
                ∧ t.done = startsWithStr (jsTrim ((splitLines c).get ⟨t.line, h⟩)) doneMarker := by
  constructor
  · intro hf
    simp [getTODOs, getDailyNote, hf]
  · intro c hfile hc
    subst hfile
    have hemp : c.isEmpty = false := by
      cases c with
      | nil => exact absurd rfl hc
      | cons x xs => rfl
    have hred : getTODOs (some c) dateStr
        = ⟨((splitLines c).enum.filter fun p =>
              startsWithStr (jsTrim p.2) todoMarker || startsWithStr (jsTrim p.2) doneMarker).map
            fun p => TodoItem.mk (jsTrim ((jsTrim p.2).drop 4))
              (startsWithStr (jsTrim p.2) doneMarker) p.1,
            dateStr,
            some (((splitLines c).enum.filter fun p =>
              startsWithStr (jsTrim p.2) todoMarker
                || startsWithStr (jsTrim p.2) doneMarker).map
            fun p => TodoItem.mk (jsTrim ((jsTrim p.2).drop 4))
              (startsWithStr (jsTrim p.2) doneMarker) p.1).length⟩ := by
      simp [getTODOs, getDailyNote, jsFalsyStr, hemp]
    rw [hred]
    refine ⟨rfl, rfl, ?_⟩
    intro t ht
    obtain ⟨p, hpfil, hFt⟩ := List.mem_map.1 ht
    obtain ⟨hpmem, hQ⟩ := List.mem_filter.1 hpfil
    have hidx : (splitLines c)[p.1]? = some p.2 := List.mem_enum_iff_getElem?.1 hpmem
    obtain ⟨hlt, hget⟩ := List.getElem?_eq_some.1 hidx
    subst hFt
    refine ⟨hlt, ?_, ?_, ?_⟩
    · simp only [Bool.or_eq_true] at hQ
      simpa [List.get_eq_getElem, hget] using hQ
    · simp [List.get_eq_getElem, hget]
    · simp [List.get_eq_getElem, hget]

/-- Witness for getTodos_spec at a concrete nonempty note. -/
theorem getTodos_spec_witness :
    ("x\n[ ] alpha\n[x] beta".toList : Str) ≠ []
    ∧ (getTODOs (some "x\n[ ] alpha\n[x] beta".toList) "2024-01-01".toList).count
      = some (getTODOs (some "x\n[ ] alpha\n[x] beta".toList) "2024-01-01".toList).todos.length :=
  ⟨by decide,
    ((getTodos_spec (some "x\n[ ] alpha\n[x] beta".toList) "2024-01-01".toList).2
      "x\n[ ] alpha\n[x] beta".toList rfl (by decide)).1⟩

/-- C4 counterexample: the source stores the trimmed line, so a matching line
    with leading whitespace changes by more than the marker replacement: here
    the stored line loses its two leading spaces, while the claim predicts
    only the marker token is replaced. -/
theorem completeTodo_trims_line_counterexample :
    (completeTODO (some "  [ ] t".toList) "t".toList "2024-01-01".toList).file
      = some "[x] t".toList
    ∧ replaceFirst todoMarker doneMarker "  [ ] t".toList = "  [x] t".toList
    ∧ ("[x] t".toList : Str) ≠ "  [x] t".toList := by decide

/-- C4 (amended): when the newline split of the note has a first line whose
    trimmed form starts with the pending marker and contains todoText, the
    call succeeds and rewrites the document with exactly that line replaced
    by its trimmed form with the first pending-marker occurrence swapped for
    the done marker (so surrounding whitespace of that line is also dropped),
    and every other line is byte-for-byte unchanged. -/
theorem completeTodo_first_match_flipped (c todoText dateStr : Str)
    (pre : List Str) (l : Str) (post : List Str)
    (hsplit : splitLines c = pre ++ l :: post)
    (hpre : ∀ x ∈ pre,
      (startsWithStr (jsTrim x) todoMarker && jsIncludes (jsTrim x) todoText) = false)
    (hl : (startsWithStr (jsTrim l) todoMarker && jsIncludes (jsTrim l) todoText) = true)
    (hc : c ≠ []) :
    completeTODO (some c) todoText dateStr
      = ⟨⟨true, none, some todoText, some true⟩,
         some (joinLines (pre ++ replaceFirst todoMarker doneMarker (jsTrim l) :: post)),
         true⟩ :=
  completeTODO_match_eq c todoText dateStr pre l post hsplit hpre hl hc

/-- Witness for completeTodo_first_match_flipped: the first matching line has
    a leading space that the rewrite drops, and both neighbours survive. -/
theorem completeTodo_first_match_flipped_witness :
    splitLines "a\n [ ] task\nb".toList = ["a".toList] ++ " [ ] task".toList :: ["b".toList]
    ∧ completeTODO (some "a\n [ ] task\nb".toList) "task".toList "2024-01-01".toList
      = ⟨⟨true, none, some "task".toList, some true⟩,
         some (joinLines (["a".toList]
           ++ replaceFirst todoMarker doneMarker (jsTrim " [ ] task".toList) :: ["b".toList])),
         true⟩ :=
  ⟨by decide,
    completeTodo_first_match_flipped "a\n [ ] task\nb".toList "task".toList
      "2024-01-01".toList ["a".toList] " [ ] task".toList ["b".toList]
      (by decide) (by decide) (by decide) (by decide)⟩

/-- C5 counterexample: with an existing but empty note file, complete_todo
    reports Daily note not found even though the note exists and simply has
    no pending line containing the text; the claim requires TODO not found
    for an existing note without a match. -/
theorem completeTodo_empty_note_counterexample :
    (completeTODO (some ([] : Str)) "x".toList "2024-01-01".toList).res.error
      = some "Daily note not found".toList
    ∧ (some ([] : Str)) ≠ (none : Option Str)
    ∧ (∀ l ∈ splitLines ([] : Str),
        (startsWithStr (jsTrim l) todoMarker && jsIncludes (jsTrim l) "x".toList) = false)
    ∧ ("Daily note not found".toList : Str) ≠ "TODO not found".toList := by decide

/-- C5 (amended): complete_todo is atomic on failure.  When the note file is
    absent, or exists with empty content (which the JS truthiness test
    conflates with absence), it fails with Daily note not found, performs no
    write and leaves the file unchanged; when the note exists with nonempty
    content and no line trimmed starts with the pending marker and contains
    todoText, it fails with TODO not found, performs no write and the file is
    not rewritten. -/
theorem completeTodo_failure_no_write (file : Option Str) (todoText dateStr : Str) :
    (file = none →
      completeTODO file todoText dateStr
        = ⟨⟨false, some "Daily note not found".toList, none, none⟩, none, false⟩)
    ∧ (file = some [] →
      completeTODO file todoText dateStr
        = ⟨⟨false, some "Daily note not found".toList, none, none⟩, file, false⟩)
    ∧ ∀ c, file = some c → c ≠ [] →
        (∀ l ∈ splitLines c,
          (startsWithStr (jsTrim l) todoMarker && jsIncludes (jsTrim l) todoText) = false) →
        completeTODO file todoText dateStr
          = ⟨⟨false, some "TODO not found".toList, some todoText, none⟩, file, false⟩ := by
  refine ⟨?_, ?_, ?_⟩
  · intro h; subst h; rfl
  · intro h; subst h; rfl
  · intro c hfile hc hnomatch
    subst hfile
    have hemp : c.isEmpty = false := by
      cases c with
      | nil => exact absurd rfl hc
      | cons x xs => rfl
    have hscan := completeScan_none todoText (splitLines c) hnomatch
    simp [completeTODO, jsFalsyStr, hemp, hscan]

/-- Witness for completeTodo_failure_no_write on a nonempty note without a
    match. -/
theorem completeTodo_failure_no_write_witness :
    ("a".toList : Str) ≠ []
    ∧ (∀ l ∈ splitLines "a".toList,
        (startsWithStr (jsTrim l) todoMarker && jsIncludes (jsTrim l) "x".toList) = false)
    ∧ completeTODO (some "a".toList) "x".toList "2024-01-01".toList
      = ⟨⟨false, some "TODO not found".toList, some "x".toList, none⟩, some "a".toList, false⟩ :=
  ⟨by decide, by decide,
    (completeTodo_failure_no_write (some "a".toList) "x".toList "2024-01-01".toList).2.2
      "a".toList rfl (by decide) (by decide)⟩

/-- C10: on an existing note whose newline split contains a line whose
    trimmed form starts with the pending marker, complete_todo with the empty
    string as todoText succeeds and flips the first such line, because the
    substring containment test is trivially satisfied by the empty string. -/
theorem completeTodo_empty_text_matches (c dateStr : Str)
    (pre : List Str) (l : Str) (post : List Str)
    (hsplit : splitLines c = pre ++ l :: post)
    (hpre : ∀ x ∈ pre, startsWithStr (jsTrim x) todoMarker = false)
    (hl : startsWithStr (jsTrim l) todoMarker = true) :
    completeTODO (some c) [] dateStr
      = ⟨⟨true, none, some ([] : Str), some true⟩,
         some (joinLines (pre ++ replaceFirst todoMarker doneMarker (jsTrim l) :: post)),
         true⟩ := by
  have hc : c ≠ [] := by
    intro h
    subst h
    have h1 : ([[]] : List Str) = pre ++ l :: post := hsplit
    cases pre with
    | nil =>
        have h2 : l = ([] : Str) := by
          have h3 := h1
          simp only [List.nil_append] at h3
          exact (List.cons.injEq _ _ _ _ ▸ h3).1.symm
        rw [h2] at hl
        exact absurd hl (by decide)
    | cons p ps =>
        have h4 := congrArg List.length h1
        simp [List.length_append] at h4
  have hpre2 : ∀ x ∈ pre,
      (startsWithStr (jsTrim x) todoMarker && jsIncludes (jsTrim x) ([] : Str)) = false :=
    fun x hx => by simp [hpre x hx]
  have hl2 : (startsWithStr (jsTrim l) todoMarker && jsIncludes (jsTrim l) ([] : Str)) = true := by
    simp [hl, jsIncludes_nil_arg]
  exact completeTODO_match_eq c [] dateStr pre l post hsplit hpre2 hl2 hc

/-- Witness for completeTodo_empty_text_matches: the second line is the first
    pending one and gets flipped by the empty-string call. -/
theorem completeTodo_empty_text_matches_witness :
    splitLines "note\n[ ] alpha\n[ ] beta".toList
      = ["note".toList] ++ "[ ] alpha".toList :: ["[ ] beta".toList]
    ∧ completeTODO (some "note\n[ ] alpha\n[ ] beta".toList) [] "2024-01-01".toList
      = ⟨⟨true, none, some ([] : Str), some true⟩,
         some (joinLines (["note".toList]
           ++ replaceFirst todoMarker doneMarker (jsTrim "[ ] alpha".toList)
             :: ["[ ] beta".toList])),
         true⟩ :=
  ⟨by decide,
    completeTodo_empty_text_matches "note\n[ ] alpha\n[ ] beta".toList "2024-01-01".toList
      ["note".toList] "[ ] alpha".toList ["[ ] beta".toList]
      (by decide) (by decide) (by decide)⟩

theorem enumFrom_filter_snd_map (P : Str → Bool) (f : Str → Str) :
    ∀ (n : Nat) (l : List Str),
      ((List.enumFrom n l).filter fun p => P p.2).map (fun p => f p.2)
        = (l.filter P).map f := by
  intro n l
  induction l generalizing n with
  | nil => rfl
  | cons x xs ih =>
      cases hPx : P x with
      | false => simp [List.filter_cons, hPx, ih (n + 1)]
      | true => simp [List.filter_cons, hPx, ih (n + 1)]

/-- C3: for a non-empty query, search_memory matches the query
    case-insensitively as a substring against each line of the document,
    returns the matching lines trimmed with blank results excluded in
    original order capped at the first twenty, counts the full match list
    before slicing, and so reports a count exceeding the number of returned
    results whenever more than twenty lines match.  It also performs its two
    storage reads. -/
theorem searchMemory_query_spec (mem : Option Str) (query : Str) (hq : query ≠ []) :
    (searchMemory mem query).result
      = ⟨some query,
         some ((((splitLines (getMemory mem)).filter
             fun l => jsIncludes (lowerStr l) (lowerStr query)).map jsTrim).filter
             fun l => decide (0 < l.length)).length,
         ((((splitLines (getMemory mem)).filter
             fun l => jsIncludes (lowerStr l) (lowerStr query)).map jsTrim).filter
             fun l => decide (0 < l.length)).take 20,
         none⟩
    ∧ (searchMemory mem query).reads = 2
    ∧ (searchMemory mem query).result.results.length ≤ 20
    ∧ (20 < ((((splitLines (getMemory mem)).filter
          fun l => jsIncludes (lowerStr l) (lowerStr query)).map jsTrim).filter
          fun l => decide (0 < l.length)).length →
        (searchMemory mem query).result.results.length
          < ((((splitLines (getMemory mem)).filter
              fun l => jsIncludes (lowerStr l) (lowerStr query)).map jsTrim).filter
              fun l => decide (0 < l.length)).length) := by
  have hqe : query.isEmpty = false := by
    cases query with
    | nil => exact absurd rfl hq
    | cons a as => rfl
  have hpipe : (((splitLines (getMemory mem)).enum.filter
        fun p => jsIncludes (lowerStr p.2) (lowerStr query)).map fun p => jsTrim p.2)
      = ((splitLines (getMemory mem)).filter
          fun l => jsIncludes (lowerStr l) (lowerStr query)).map jsTrim :=
    enumFrom_filter_snd_map (fun l => jsIncludes (lowerStr l) (lowerStr query)) jsTrim 0
      (splitLines (getMemory mem))
  have hred : searchMemory mem query
      = ⟨⟨some query,
          some ((((splitLines (getMemory mem)).filter
              fun l => jsIncludes (lowerStr l) (lowerStr query)).map jsTrim).filter
              fun l => decide (0 < l.length)).length,
          ((((splitLines (getMemory mem)).filter
              fun l => jsIncludes (lowerStr l) (lowerStr query)).map jsTrim).filter
              fun l => decide (0 < l.length)).take 20,
          none⟩, 2⟩ := by
    simp only [searchMemory, hqe, Bool.false_eq_true, if_false, hpipe]
  rw [hred]
  refine ⟨rfl, rfl, ?_, ?_⟩
  · simp
  · intro hgt
    have h20 : (((((splitLines (getMemory mem)).filter
        fun l => jsIncludes (lowerStr l) (lowerStr query)).map jsTrim).filter
        fun l => decide (0 < l.length)).take 20).length = 20 := by
      rw [List.length_take]
      omega
    simpa [h20] using hgt

/-- Witness for searchMemory_query_spec on a document with twenty-two
    matching lines, exercising the cap. -/
theorem searchMemory_query_spec_witness :
    ("q".toList : Str) ≠ []
    ∧ (searchMemory
        (some "q\nq\nq\nq\nq\nq\nq\nq\nq\nq\nq\nq\nq\nq\nq\nq\nq\nq\nq\nq\nq\nq".toList)
        "q".toList).reads = 2
    ∧ (searchMemory
        (some "q\nq\nq\nq\nq\nq\nq\nq\nq\nq\nq\nq\nq\nq\nq\nq\nq\nq\nq\nq\nq\nq".toList)
        "q".toList).result.count = some 22
    ∧ (searchMemory
        (some "q\nq\nq\nq\nq\nq\nq\nq\nq\nq\nq\nq\nq\nq\nq\nq\nq\nq\nq\nq\nq\nq".toList)
        "q".toList).result.results.length = 20 :=
  ⟨by decide,
    (searchMemory_query_spec
      (some "q\nq\nq\nq\nq\nq\nq\nq\nq\nq\nq\nq\nq\nq\nq\nq\nq\nq\nq\nq\nq\nq".toList)
      "q".toList (by decide)).2.1,
    by decide, by decide⟩

/-! Order facts about lexLt, and sortedness of sortDesc. -/

theorem lexLt_irrefl : ∀ s : Str, lexLt s s = false
  | [] => rfl
  | c :: cs => by simp [lexLt, lt_irrefl, lexLt_irrefl cs]

theorem lexLt_asymm : ∀ a b : Str, lexLt a b = true → lexLt b a = false
  | [], [] => by simp [lexLt]
  | [], _ :: _ => fun _ => rfl
  | _ :: _, [] => by simp [lexLt]
  | a :: as, b :: bs => by
      intro h
      by_cases hab : a < b
      · simp [lexLt, hab, lt_asymm hab]
      · by_cases hba : b < a
        · simp [lexLt, hab, hba] at h
        · simp only [lexLt, if_neg hab, if_neg hba] at h
          simp [lexLt, if_neg hab, if_neg hba, lexLt_asymm as bs h]

theorem lexLt_conn : ∀ a b : Str, lexLt a b = false → lexLt b a = false → a = b
  | [], [] => fun _ _ => rfl
  | [], _ :: _ => by simp [lexLt]
  | _ :: _, [] => by simp [lexLt]
  | a :: as, b :: bs => by
      intro h1 h2
      by_cases hab : a < b
      · simp [lexLt, hab] at h1
      · by_cases hba : b < a
        · simp [lexLt, hba] at h2
        · have hEq : a = b := le_antisymm (le_of_not_lt hba) (le_of_not_lt hab)
          simp only [lexLt, if_neg hab, if_neg hba] at h1
          simp only [lexLt, if_neg hba, if_neg hab] at h2
          rw [hEq, lexLt_conn as bs h1 h2]

theorem lexLt_trans : ∀ a b c : Str, lexLt a b = true → lexLt b c = true → lexLt a c = true
  | [], [], _ => by simp [lexLt]
  | [], _ :: _, [] => by intro _ h2; simp [lexLt] at h2
  | [], _ :: _, _ :: _ => fun _ _ => rfl
  | _ :: _, [], _ => by simp [lexLt]
  | _ :: _, _ :: _, [] => by intro _ h2; simp [lexLt] at h2
  | a :: as, b :: bs, c :: cs => by
      intro h1 h2
      by_cases hab : a < b
      · by_cases hbc : b < c
        · simp [lexLt, lt_trans hab hbc]
        · by_cases hcb : c < b
          · simp [lexLt, hab, hbc, hcb] at h2
          · have hbceq : b = c := le_antisymm (le_of_not_lt hcb) (le_of_not_lt hbc)
            subst hbceq
            simp [lexLt, hab]
      · by_cases hba : b < a
        · simp [lexLt, hab, hba] at h1
        · have habeq : a = b := le_antisymm (le_of_not_lt hba) (le_of_not_lt hab)
          subst habeq
          by_cases hac : a < c
          · simp [lexLt, hac]
          · by_cases hca : c < a
            · simp [lexLt, hac, hca] at h2
            · simp only [lexLt, if_neg hac, if_neg hca] at h2 ⊢
              simp only [lexLt, if_neg (lt_irrefl a)] at h1
              exact lexLt_trans as bs cs h1 h2

theorem lexLt_false_trans (a b c : Str) (h1 : lexLt a b = false) (h2 : lexLt b c = false) :
    lexLt a c = false := by
  cases hac : lexLt a c with
  | false => rfl
  | true =>
      cases hba : lexLt b a with
      | true =>
          have hbc := lexLt_trans b a c hba hac
          simp [h2] at hbc
      | false =>
          have heq := lexLt_conn a b h1 hba
          subst heq
          simp [hac] at h2

theorem insertDesc_perm (x : Str) : ∀ l, List.Perm (insertDesc x l) (x :: l)
  | [] => List.Perm.refl _
  | y :: ys => by
      simp only [insertDesc]
      by_cases h : lexLt x y = true
      · rw [if_pos h]
        exact ((insertDesc_perm x ys).cons y).trans (List.Perm.swap x y ys)
      · rw [if_neg h]

theorem sortDesc_perm : ∀ l, List.Perm (sortDesc l) l
  | [] => List.Perm.refl _
  | x :: xs => (insertDesc_perm x (sortDesc xs)).trans ((sortDesc_perm xs).cons x)

theorem insertDesc_sorted (x : Str) (l : List Str)
    (hl : l.Pairwise (fun a b => lexLt a b = false)) :
    (insertDesc x l).Pairwise (fun a b => lexLt a b = false) := by
  induction l with
  | nil => simp [insertDesc]
  | cons y ys ih =>
      rcases List.pairwise_cons.1 hl with ⟨hy, hys⟩
      by_cases h : lexLt x y = true
      · simp only [insertDesc, if_pos h]
        refine List.pairwise_cons.2 ⟨?_, ih hys⟩
        intro z hz
        rcases List.mem_cons.1 ((insertDesc_perm x ys).mem_iff.1 hz) with rfl | hzys
        · exact lexLt_asymm _ _ h
        · exact hy z hzys
      · have hxy : lexLt x y = false := by
          cases hxy2 : lexLt x y with
          | true => exact absurd hxy2 h
          | false => rfl
        simp only [insertDesc, if_neg h]
        refine List.pairwise_cons.2 ⟨?_, hl⟩
        intro z hz
        rcases List.mem_cons.1 hz with rfl | hzys
        · exact hxy
        · exact lexLt_false_trans x y z hxy (hy z hzys)

theorem sortDesc_sorted : ∀ l, (sortDesc l).Pairwise (fun a b => lexLt a b = false)
  | [] => List.Pairwise.nil
  | x :: xs => insertDesc_sorted x (sortDesc xs) (sortDesc_sorted xs)

theorem pairwise_strictDesc_of_nodup (l : List Str)
    (hs : l.Pairwise (fun a b => lexLt a b = false)) (hnd : l.Nodup) :
    l.Pairwise (fun a b => lexLt b a = true) := by
  refine (hs.and hnd).imp ?_
  intro a b hab
  cases hba : lexLt b a with
  | true => rfl
  | false => exact absurd (lexLt_conn a b hab.1 hba) hab.2

/-! Facts about the daily-note filename pattern and extension stripping. -/

theorem isDatePart_spec (t : Str) (h : isDatePart t = true) :
    t.length = 10 ∧ ∀ x ∈ t, x.isDigit = true ∨ x = '-' := by
  unfold isDatePart at h
  split at h
  · next y1 y2 y3 y4 h1c m1 m2 h2c d1 d2 =>
      simp only [Bool.and_eq_true, beq_iff_eq] at h
      obtain ⟨⟨⟨⟨⟨⟨⟨⟨⟨hy1, hy2⟩, hy3⟩, hy4⟩, hh1⟩, hm1⟩, hm2⟩, hh2⟩, hd1⟩, hd2⟩ := h
      refine ⟨rfl, ?_⟩
      intro x hx
      simp only [List.mem_cons, List.not_mem_nil, or_false] at hx
      rcases hx with rfl | rfl | rfl | rfl | rfl | rfl | rfl | rfl | rfl | rfl
      · exact Or.inl hy1
      · exact Or.inl hy2
      · exact Or.inl hy3
      · exact Or.inl hy4
      · exact Or.inr hh1
      · exact Or.inl hm1
      · exact Or.inl hm2
      · exact Or.inr hh2
      · exact Or.inl hd1
      · exact Or.inl hd2
  · exact absurd h (by simp)

theorem ne_dot_of_digit_or_dash (x : Char) (h : x.isDigit = true ∨ x = '-') : x ≠ '.' := by
  intro he
  subst he
  rcases h with h | h
  · exact absurd h (by decide)
  · exact absurd h (by decide)

theorem replaceFirst_md_strip (t : Str) (hnd : ∀ x ∈ t, x ≠ '.') :
    replaceFirst ".md".toList [] (t ++ ".md".toList) = t := by
  induction t with
  | nil => decide
  | cons c cs ih =>
      have hc : c ≠ '.' := hnd c (by simp)
      have hm : (".md".toList : Str) = '.' :: "md".toList := rfl
      have hstart : startsWithStr (c :: (cs ++ ".md".toList)) ".md".toList = false := by
        rw [hm]
        simp [startsWithStr, hc]
      simp only [List.cons_append, replaceFirst, List.append_eq, hstart,
        Bool.false_eq_true, if_false]
      rw [ih (fun x hx => hnd x (by simp [hx]))]

theorem lexLt_append_same : ∀ (x y s : Str), x.length = y.length →
    lexLt (x ++ s) (y ++ s) = lexLt x y
  | [], [], s, _ => by
      simp only [List.nil_append]
      rw [lexLt_irrefl]
      rfl
  | [], _ :: _, _, h => by simp at h
  | _ :: _, [], _, h => by simp at h
  | x :: xs, y :: ys, s, h => by
      simp only [List.cons_append, lexLt, List.append_eq]
      have h2 : xs.length = ys.length := by simpa using h
      rw [lexLt_append_same xs ys s h2]

theorem dailyNoteName_decomp (a : Str) (ha : isDailyNoteName a = true) :
    a = a.take 10 ++ ".md".toList
      ∧ (a.take 10).length = 10
      ∧ replaceFirst ".md".toList [] a = a.take 10 := by
  unfold isDailyNoteName at ha
  simp only [Bool.and_eq_true, beq_iff_eq] at ha
  obtain ⟨hdp, hdrop⟩ := ha
  obtain ⟨hlen, hmem⟩ := isDatePart_spec _ hdp
  have hdec : a = a.take 10 ++ ".md".toList := by
    conv_lhs => rw [← List.take_append_drop 10 a]
    rw [hdrop]
  have hdot : ∀ x ∈ a.take 10, x ≠ '.' :=
    fun x hx => ne_dot_of_digit_or_dash x (hmem x hx)
  refine ⟨hdec, hlen, ?_⟩
  conv_lhs => rw [hdec]
  exact replaceFirst_md_strip _ hdot

theorem strip_preserves_lexLt (a b : Str) (ha : isDailyNoteName a = true)
    (hb : isDailyNoteName b = true) (h : lexLt b a = true) :
    lexLt (replaceFirst ".md".toList [] b) (replaceFirst ".md".toList [] a) = true := by
  obtain ⟨hadec, halen, hastrip⟩ := dailyNoteName_decomp a ha
  obtain ⟨hbdec, hblen, hbstrip⟩ := dailyNoteName_decomp b hb
  rw [hastrip, hbstrip]
  rw [hadec, hbdec] at h
  rwa [lexLt_append_same _ _ _ (hblen.trans halen.symm)] at h

/-- C7: list_daily_notes keeps exactly the filenames matching the anchored
    date pattern with the extension stripped, sorted strictly descending,
    truncated to at most limit entries, with count equal to the number of
    returned notes; on a directory-read failure it returns empty notes, zero
    count and the error message instead of propagating.  The directory
    listing is assumed duplicate-free, as a real directory enumeration is. -/
theorem listDailyNotes_spec :
    (∀ (files : List Str) (limit : Nat), files.Nodup →
      (∀ n ∈ (listDailyNotes (Except.ok files) limit).notes,
          ∃ f ∈ files, isDailyNoteName f = true ∧ n = replaceFirst ".md".toList [] f)
        ∧ (listDailyNotes (Except.ok files) limit).notes.Pairwise
            (fun a b => lexLt b a = true)
        ∧ (listDailyNotes (Except.ok files) limit).notes.length ≤ limit
        ∧ (listDailyNotes (Except.ok files) limit).count
          = (listDailyNotes (Except.ok files) limit).notes.length
        ∧ (listDailyNotes (Except.ok files) limit).error = none)
    ∧ ∀ (e : Str) (limit : Nat), listDailyNotes (Except.error e) limit = ⟨[], 0, some e⟩ := by
  constructor
  · intro files limit hnd
    have hmempat : ∀ x ∈ (sortDesc (files.filter isDailyNoteName)).take limit,
        x ∈ files ∧ isDailyNoteName x = true := by
      intro x hx
      have hx1 : x ∈ sortDesc (files.filter isDailyNoteName) :=
        (List.take_sublist _ _).subset hx
      have hx2 : x ∈ files.filter isDailyNoteName :=
        (sortDesc_perm _).mem_iff.1 hx1
      exact ⟨(List.mem_filter.1 hx2).1, (List.mem_filter.1 hx2).2⟩
    refine ⟨?_, ?_, ?_, rfl, rfl⟩
    · intro n hn
      obtain ⟨f, hf, hfn⟩ := List.mem_map.1 hn
      exact ⟨f, (hmempat f hf).1, (hmempat f hf).2, hfn.symm⟩
    · have hs1 := sortDesc_sorted (files.filter isDailyNoteName)
      have hnd1 : (sortDesc (files.filter isDailyNoteName)).Nodup :=
        (sortDesc_perm _).symm.nodup (hnd.filter _)
      have hs2 := List.Pairwise.sublist (List.take_sublist limit _) hs1
      have hnd2 := (List.take_sublist limit _).nodup hnd1
      have hstrict := pairwise_strictDesc_of_nodup _ hs2 hnd2
      refine List.pairwise_map.2 (hstrict.imp_of_mem ?_)
      intro a b hma hmb hab
      exact strip_preserves_lexLt a b (hmempat a hma).2 (hmempat b hmb).2 hab
    · show ((((sortDesc (files.filter isDailyNoteName)).take limit).map
          (replaceFirst ".md".toList [])).length) ≤ limit
      rw [List.length_map]
      exact List.length_take_le limit _
  · intro e limit
    rfl

/-- Witness for listDailyNotes_spec on a concrete directory listing together
    with the failure branch. -/
theorem listDailyNotes_spec_witness :
    ([ "2024-01-02.md".toList, "2024-01-03.md".toList, "notes.txt".toList,
        "2024-01-01.md".toList ] : List Str).Nodup
    ∧ (listDailyNotes (Except.ok [ "2024-01-02.md".toList, "2024-01-03.md".toList,
        "notes.txt".toList, "2024-01-01.md".toList ]) 2).notes.Pairwise
        (fun a b => lexLt b a = true)
    ∧ listDailyNotes (Except.error "boom".toList) 2 = ⟨[], 0, some "boom".toList⟩ :=
  ⟨by decide,
    (listDailyNotes_spec.1 [ "2024-01-02.md".toList, "2024-01-03.md".toList,
      "notes.txt".toList, "2024-01-01.md".toList ] 2 (by decide)).2.1,
    listDailyNotes_spec.2 "boom".toList 2⟩

end WorkspaceMemory
